import Mathlib

/-!
Shallow embedding of the SaveAny-Bot monitor core (src/saveany_monitor.py):
the log-line task parser `parse_download_task`, the task registry it mutates,
the HTTP bulk-clear operation `clear_tasks`, and the (spec-modelled) rate
sampler.  Python dicts are embedded as insertion-ordered association lists,
Python floats as rationals, and the `re.search` calls as executable leftmost
non-greedy search functions over character lists.
-/

namespace SaveAny

/-- Python regex `\w` on the identifiers appearing in the logs
(ASCII letters, digits and underscore). -/
def isWordChar (c : Char) : Bool := c.isAlphanum || c = '_'

/-- The whitespace class of Python `str.strip` / regex `\s`. -/
def isPyWhitespace (c : Char) : Bool :=
  c = ' ' || c = '\t' || c = '\n' || c = '\r' || c = '\x0b' || c = '\x0c'

/-- Python `str.strip()`. -/
def pyStrip (s : String) : String :=
  String.mk (((s.data.dropWhile isPyWhitespace).reverse.dropWhile isPyWhitespace).reverse)

/-- Python `str.lower()` (ASCII range, which covers every keyword involved). -/
def pyLower (s : String) : String := String.mk (s.data.map Char.toLower)

/-- Python `needle in hay` substring test. -/
def containsSub (needle : List Char) : List Char → Bool
  | [] => needle.isPrefixOf ([] : List Char)
  | c :: rest => needle.isPrefixOf (c :: rest) || containsSub needle rest

/-- `int()` on a digit run captured by `(\d+)`. -/
def digitsToNat (ds : List Char) : Nat :=
  ds.foldl (fun n c => n * 10 + (c.toNat - '0'.toNat)) 0

/-- `re.search(r'Processing task: (\w+)', message)`: leftmost occurrence of the
literal followed by a nonempty maximal word-character run (the capture). -/
def searchProcessing : List Char → Option String
  | [] => none
  | c :: rest =>
    if ("Processing task: ".data).isPrefixOf (c :: rest) then
      let tail := (c :: rest).drop ("Processing task: ".data).length
      let run := tail.takeWhile isWordChar
      if run.isEmpty then searchProcessing rest else some (String.mk run)
    else searchProcessing rest

/-- One attempt of `batch_file\[(\w+)\]: Starting` at the current position:
the greedy `\w+` run must be nonempty and be followed by `]: Starting`. -/
def batchAt (cs : List Char) : Option String :=
  if ("batch_file[".data).isPrefixOf cs then
    let tail := cs.drop ("batch_file[".data).length
    let run := tail.takeWhile isWordChar
    if run.isEmpty then none
    else if ("]: Starting".data).isPrefixOf (tail.drop run.length) then some (String.mk run)
    else none
  else none

/-- `re.search(r'batch_file\[(\w+)\]: Starting', message)`. -/
def searchBatch : List Char → Option String
  | [] => none
  | c :: rest =>
    match batchAt (c :: rest) with
    | some r => some r
    | none => searchBatch rest

/-- Non-greedy capture of `(.+?)` in `file\[(.+?)\]: Starting file download`:
the shortest nonempty newline-free prefix followed by the literal suffix. -/
def fileStartCap (acc : List Char) : List Char → Option String
  | [] => none
  | c :: rest =>
    if c = '\n' then none
    else if ("]: Starting file download".data).isPrefixOf rest then some (String.mk (acc ++ [c]))
    else fileStartCap (acc ++ [c]) rest

/-- `re.search(r'file\[(.+?)\]: Starting file download', message)`. -/
def searchFileStart : List Char → Option String
  | [] => none
  | c :: rest =>
    match (if ("file[".data).isPrefixOf (c :: rest) then
             fileStartCap [] ((c :: rest).drop ("file[".data).length)
           else none) with
    | some r => some r
    | none => searchFileStart rest

/-- The `(\d+)/(\d+)` tail of the progress pattern: a greedy digit run followed
by a slash followed by a second greedy digit run. -/
def progNums (cs : List Char) : Option (Nat × Nat) :=
  let d1 := cs.takeWhile Char.isDigit
  if d1.isEmpty then none
  else
    match cs.drop d1.length with
    | '/' :: rest2 =>
      let d2 := rest2.takeWhile Char.isDigit
      if d2.isEmpty then none else some (digitsToNat d1, digitsToNat d2)
    | _ => none

/-- Non-greedy capture of `(.+?)` in `Progress update: (.+?), (\d+)/(\d+)`:
extend the capture until `, <digits>/<digits>` parses right after it. -/
def progCap (acc : List Char) : List Char → Option (String × Nat × Nat)
  | [] => none
  | c :: rest =>
    if c = '\n' then none
    else
      match (if (", ".data).isPrefixOf rest then
               (progNums (rest.drop 2)).map (fun p => (String.mk (acc ++ [c]), p.1, p.2))
             else none) with
      | some r => some r
      | none => progCap (acc ++ [c]) rest

/-- `re.search(r'Progress update: (.+?), (\d+)/(\d+)', message)`. -/
def searchProgress : List Char → Option (String × Nat × Nat)
  | [] => none
  | c :: rest =>
    match (if ("Progress update: ".data).isPrefixOf (c :: rest) then
             progCap [] ((c :: rest).drop ("Progress update: ".data).length)
           else none) with
    | some r => some r
    | none => searchProgress rest

/-- `.*(?:downloaded successfully|completed)`: one of the two keywords occurs
at or after the current position, with no newline crossed by the `.*`. -/
def dotStarKeyword : List Char → Bool
  | [] => false
  | c :: rest =>
    ("downloaded successfully".data).isPrefixOf (c :: rest) ||
    ("completed".data).isPrefixOf (c :: rest) ||
    (!(c = '\n') && dotStarKeyword rest)

/-- Non-greedy capture of `(.+?)` in `file\[(.+?)\].*(?:downloaded
successfully|completed)`: shortest nonempty newline-free prefix followed by
`]` with a keyword occurrence somewhere after it. -/
def completeCap (acc : List Char) : List Char → Option String
  | [] => none
  | c :: rest =>
    if c = '\n' then none
    else if rest.head? = some ']' && dotStarKeyword (rest.drop 1) then
      some (String.mk (acc ++ [c]))
    else completeCap (acc ++ [c]) rest

/-- `re.search(r'file\[(.+?)\].*(?:downloaded successfully|completed)', message)`.
Note: the keywords in this pattern are matched case-sensitively. -/
def searchComplete : List Char → Option String
  | [] => none
  | c :: rest =>
    match (if ("file[".data).isPrefixOf (c :: rest) then
             completeCap [] ((c :: rest).drop ("file[".data).length)
           else none) with
    | some r => some r
    | none => searchComplete rest

/-- Non-greedy capture of `(.+?)` in `file\s*\[(.+?)\]`: the shortest nonempty
newline-free prefix followed by `]`. -/
def errCap (acc : List Char) : List Char → Option String
  | [] => none
  | c :: rest =>
    if c = '\n' then none
    else if rest.head? = some ']' then some (String.mk (acc ++ [c]))
    else errCap (acc ++ [c]) rest

/-- One attempt of `file\s*\[(.+?)\]` at the current position. -/
def errAt (cs : List Char) : Option String :=
  if ("file".data).isPrefixOf cs then
    let tail := cs.drop ("file".data).length
    let ws := tail.takeWhile isPyWhitespace
    match tail.drop ws.length with
    | '[' :: rest => errCap [] rest
    | _ => none
  else none

/-- `re.search(r'file\s*\[(.+?)\]', message)`. -/
def searchErrFile : List Char → Option String
  | [] => none
  | c :: rest =>
    match errAt (c :: rest) with
    | some r => some r
    | none => searchErrFile rest

/-- Guard of the completed branch:
`'downloaded successfully' in message or 'upload completed' in message or
'completed' in message.lower()`. -/
def completedCond (message : String) : Bool :=
  containsSub ("downloaded successfully".data) message.data ||
  containsSub ("upload completed".data) message.data ||
  containsSub ("completed".data) (pyLower message).data

/-- Guard of the failure branch:
`any(kw in message.lower() for kw in ['failed', 'error', 'canceled', 'cancelled'])`. -/
def failedCond (message : String) : Bool :=
  containsSub ("failed".data) (pyLower message).data ||
  containsSub ("error".data) (pyLower message).data ||
  containsSub ("canceled".data) (pyLower message).data ||
  containsSub ("cancelled".data) (pyLower message).data

/-- `is_canceled` test inside the failure branch. -/
def canceledCond (message : String) : Bool :=
  containsSub ("canceled".data) (pyLower message).data ||
  containsSub ("cancelled".data) (pyLower message).data ||
  containsSub ("context canceled".data) (pyLower message).data

/-- One entry of the `download_tasks` dict.  `progress` holds the Python
float as a rational. -/
structure Task where
  task_id : String
  filename : String
  downloaded : Nat
  total : Nat
  progress : ℚ
  status : String
  start_time : String
deriving DecidableEq, Repr

/-- `download_tasks`: a Python dict embedded as its insertion-ordered list of
key/value pairs (keys are unique in every state the program builds). -/
abbrev Registry := List (String × Task)

/-- `task_id in download_tasks`. -/
def hasKey : Registry → String → Bool
  | [], _ => false
  | (k', _) :: rest, k => if k' = k then true else hasKey rest k

/-- `download_tasks.get(k)`. -/
def lookupTask : Registry → String → Option Task
  | [], _ => none
  | (k', t) :: rest, k => if k' = k then some t else lookupTask rest k

/-- The existence scan of branch 3:
`any(download_tasks[tid]['filename'] == filename for tid in download_tasks)`. -/
def hasFilename : Registry → String → Bool
  | [], _ => false
  | (_, t) :: rest, fn => if t.filename = fn then true else hasFilename rest fn

/-- Round half to even, the tie-breaking rule of Python `round`. -/
def roundHalfEven (x : ℚ) : ℤ :=
  if x - (⌊x⌋ : ℚ) < 1 / 2 then ⌊x⌋
  else if 1 / 2 < x - (⌊x⌋ : ℚ) then ⌊x⌋ + 1
  else if ⌊x⌋ % 2 = 0 then ⌊x⌋ else ⌊x⌋ + 1

/-- Python `round(x, 1)` under the exact-rational idealization of floats. -/
def pyRound1 (x : ℚ) : ℚ := (roundHalfEven (x * 10) : ℚ) / 10

/-- Integer-level computation of `roundHalfEven (1000 * d / t)` for `t > 0`:
quotient plus the half-even carry decided by comparing twice the remainder
with the divisor.  (Kept in integer arithmetic so that concrete registry
states evaluate; `progressValue_eq_pyRound1` proves it agrees with the
rational formula.) -/
def progressTenths (d t : Nat) : Nat :=
  if 2 * (1000 * d % t) < t then 1000 * d / t
  else if t < 2 * (1000 * d % t) then 1000 * d / t + 1
  else if (1000 * d / t) % 2 = 0 then 1000 * d / t else 1000 * d / t + 1

/-- `round((downloaded / total * 100) if total > 0 else 0, 1)`. -/
def progressValue (downloaded total : Nat) : ℚ :=
  if 0 < total then mkRat (progressTenths downloaded total) 10 else 0

/-- The fresh entry created by branch 1 (`Processing task`). -/
def newQueuedTask (tid now : String) : Task :=
  { task_id := tid, filename := "等待解析...", downloaded := 0, total := 0,
    progress := 0, status := "排队中", start_time := now }

/-- The fresh entry synthesized by branch 3 when no placeholder task exists. -/
def newStartedTask (nid fn now : String) : Task :=
  { task_id := nid, filename := fn, downloaded := 0, total := 0,
    progress := 0, status := "开始下载", start_time := now }

/-- `download_tasks[tid]['status'] = st` for the entry keyed `tid`. -/
def setStatusAt (k st : String) : Registry → Registry
  | [] => []
  | (k', t) :: rest =>
    if k' = k then (k', { t with status := st }) :: rest
    else (k', t) :: setStatusAt k st rest

/-- The binding loop of branch 3: give the new filename (and the "started"
status) to the first task whose filename is the placeholder or empty, and
report whether a binding happened. -/
def bindFilename (fn : String) : Registry → Registry × Bool
  | [] => ([], false)
  | (k, t) :: rest =>
    if t.filename = "等待解析..." ∨ t.filename = "" then
      ((k, { t with filename := fn, status := "开始下载" }) :: rest, true)
    else
      let r := bindFilename fn rest
      ((k, t) :: r.1, r.2)

/-- The field updates of branch 4 applied to one task. -/
def updateProgressTask (t : Task) (downloaded total : Nat) : Task :=
  { t with downloaded := downloaded, total := total,
           progress := progressValue downloaded total, status := "下载中" }

/-- Branch 4, id hit: update the entry keyed `k` in place. -/
def updateByKey (k : String) (d tot : Nat) : Registry → Registry
  | [] => []
  | (k', t) :: rest =>
    if k' = k then (k', updateProgressTask t d tot) :: rest
    else (k', t) :: updateByKey k d tot rest

/-- Branch 4, filename fallback: update the first entry whose filename equals
the identifier, reporting whether one was found. -/
def updateByFilename (fn : String) (d tot : Nat) : Registry → Registry × Bool
  | [] => ([], false)
  | (k, t) :: rest =>
    if t.filename = fn then ((k, updateProgressTask t d tot) :: rest, true)
    else
      let r := updateByFilename fn d tot rest
      ((k, t) :: r.1, r.2)

/-- Branch 5a: mark the first task with this filename completed and force its
progress to 100 (the loop breaks after the first hit). -/
def completeByFilename (fn : String) : Registry → Registry
  | [] => []
  | (k, t) :: rest =>
    if t.filename = fn then (k, { t with status := "已完成", progress := 100 }) :: rest
    else (k, t) :: completeByFilename fn rest

/-- Branch 5b: set the failure/cancel status on the first task with this
filename (the loop breaks after the first hit). -/
def failByFilename (fn st : String) : Registry → Registry
  | [] => []
  | (k, t) :: rest =>
    if t.filename = fn then (k, { t with status := st }) :: rest
    else (k, t) :: failByFilename fn st rest

/-- `SaveAnyMonitor.parse_download_task`, the registry transition applied by
one log line.  `now` stands for `datetime.now().strftime(...)` and `fresh` for
`uuid.uuid4().hex[:8]`; the UI refresh and the 30-second removal timers are
presentation-side effects with no bearing on the registry contents computed
here. -/
def parse_download_task (now fresh : String) (message : String) (s : Registry) : Registry :=
  match searchProcessing message.data with
  | some task_id =>
    if hasKey s task_id then s else s ++ [(task_id, newQueuedTask task_id now)]
  | none =>
  match searchBatch message.data with
  | some tid => if hasKey s tid then setStatusAt tid "初始化" s else s
  | none =>
  match searchFileStart message.data with
  | some filename =>
    if hasFilename s filename then s
    else
      let r := bindFilename filename s
      if r.2 then r.1
      else s ++ [("auto_" ++ fresh, newStartedTask ("auto_" ++ fresh) filename now)]
  | none =>
  match searchProgress message.data with
  | some (rawIdent, downloaded, total) =>
    let identifier := pyStrip rawIdent
    if hasKey s identifier then updateByKey identifier downloaded total s
    else (updateByFilename identifier downloaded total s).1
  | none =>
  if completedCond message then
    match searchComplete message.data with
    | some filename => completeByFilename filename s
    | none => s
  else if failedCond message then
    match searchErrFile message.data with
    | some filename =>
      failByFilename filename (if canceledCond message then "已取消" else "失败") s
    | none => s
  else s

/-- The terminal status set `['已完成', '已取消', '失败']`. -/
def isTerminal (t : Task) : Bool :=
  t.status = "已完成" || t.status = "已取消" || t.status = "失败"

/-- The per-entry removal test of `MonitorHTTPHandler.clear_tasks`. -/
def shouldClear (clear_type : String) (t : Task) : Bool :=
  (clear_type = "completed" && isTerminal t) || clear_type = "all"

/-- `MonitorHTTPHandler.clear_tasks`: collect the matching keys, delete them,
answer the count.  Keys are unique, so deleting the collected keys from the
dict keeps exactly the non-matching entries in order. -/
def clear_tasks (clear_type : String) (s : Registry) : Registry × Nat :=
  (s.filter (fun p => !shouldClear clear_type p.2),
   (s.filter (fun p => shouldClear clear_type p.2)).length)

/-- `SaveAnyMonitor.remove_finished_task`: drop the entry keyed `tid` if present. -/
def remove_finished_task (tid : String) (s : Registry) : Registry :=
  s.filter (fun p => !(p.1 = tid))

/-- `SaveAnyMonitor.clear_finished_tasks`. -/
def clear_finished_tasks (s : Registry) : Registry :=
  s.filter (fun p => !isTerminal p.2)

/-- Registry states reachable from the empty initial `download_tasks` through
the operations that mutate it. -/
inductive Reachable : Registry → Prop
  | init : Reachable []
  | parse (now fresh message : String) {s : Registry} :
      Reachable s → Reachable (parse_download_task now fresh message s)
  | clear (clear_type : String) {s : Registry} :
      Reachable s → Reachable (clear_tasks clear_type s).1
  | remove (tid : String) {s : Registry} :
      Reachable s → Reachable (remove_finished_task tid s)
  | clearFinished {s : Registry} :
      Reachable s → Reachable (clear_finished_tasks s)

/-- State of one monitored counter stream. -/
structure RateState where
  prev : Option (ℤ × ℚ)
  lastSpeed : ℚ
  history : List ℚ
  cumulative : ℤ
deriving DecidableEq, Repr

/-- The empty per-stream state (no previous sample). -/
def initialRateState : RateState :=
  { prev := none, lastSpeed := 0, history := [], cumulative := 0 }

/-- Modelled from the spec: the counter-diff sampling step of the RateSampler
(`start_monitoring` is only a stub in the source; `__init__` declares the
`net_history` deque of capacity 60 and the previous-sample slots but the
sampling loop itself is absent).  Spec section 4.3: no previous sample means
record and report 0; a non-positive time delta reports the last known speed
unchanged; a negative byte delta (counter reset) records a fresh baseline and
reports 0 without rolling back the cumulative total; otherwise the speed is
`deltaBytes / deltaTime`, the sample is recorded, the speed is appended to the
bounded history and added to the cumulative total. -/
def sample (st : RateState) (counterValue : ℤ) (timestamp : ℚ) : RateState × ℚ :=
  match st.prev with
  | none => ({ st with prev := some (counterValue, timestamp) }, 0)
  | some (pc, pt) =>
    let deltaBytes : ℤ := counterValue - pc
    let deltaTime : ℚ := timestamp - pt
    if deltaTime ≤ 0 then (st, st.lastSpeed)
    else if deltaBytes < 0 then
      ({ st with prev := some (counterValue, timestamp), lastSpeed := 0 }, 0)
    else
      let speed : ℚ := (deltaBytes : ℚ) / deltaTime
      let h := st.history ++ [speed]
      ({ prev := some (counterValue, timestamp), lastSpeed := speed,
         history := if h.length > 60 then h.drop (h.length - 60) else h,
         cumulative := st.cumulative + deltaBytes }, speed)

/-- The sampler keyed by stream (process I/O, system I/O). -/
abbrev RateSampler := List (String × RateState)

/-- Previous state recorded for a stream key, if any. -/
def findState : RateSampler → String → Option RateState
  | [], _ => none
  | (k', st) :: rest, k => if k' = k then some st else findState rest k

/-- Store the updated state for a stream key. -/
def setState (key : String) (st : RateState) : RateSampler → RateSampler
  | [] => [(key, st)]
  | (k, s0) :: rest => if k = key then (key, st) :: rest else (k, s0) :: setState key st rest

/-- Modelled from the spec: `sample(streamKey, counterValue, timestamp)`
dispatches to the per-stream state (a fresh stream starts from
`initialRateState`, whose `prev` is `none`). -/
def sampleKey (sm : RateSampler) (key : String) (cv : ℤ) (ts : ℚ) : RateSampler × ℚ :=
  let r := sample ((findState sm key).getD initialRateState) cv ts
  (setState key r.1 sm, r.2)

/-- The progress formula as the spec states it (sections 3 and 8):
`round(downloaded / total * 100, 1)` when `total > 0`, else 0. -/
def specProgress (d t : ℕ) : ℚ := if 0 < t then pyRound1 ((d : ℚ) / (t : ℚ) * 100) else 0

/-- Concrete registry states built from the four-line scenario of spec
section 8, shared by the concrete theorems below. -/

def demo1 : Registry := parse_download_task "n1" "f1" "Processing task: T1" []

def demo2 : Registry := parse_download_task "n2" "f2" "file[a.mp4]: Starting file download" demo1

def demo3 : Registry := parse_download_task "n3" "f3" "Progress update: a.mp4, 50/100" demo2

def demo4 : Registry := parse_download_task "n4" "f4" "file[a.mp4]: downloaded successfully" demo3

def demoOver : Registry := parse_download_task "n2" "f2" "Progress update: T1, 150/100" demo1

def demoCompleted : Task :=
  { task_id := "T1", filename := "a.mp4", downloaded := 50, total := 100,
    progress := 100, status := "已完成", start_time := "n1" }

def demoDownloading : Task :=
  { task_id := "T1", filename := "a.mp4", downloaded := 50, total := 100,
    progress := 50, status := "下载中", start_time := "n1" }

def demoStarted : Task :=
  { task_id := "T1", filename := "a.mp4", downloaded := 0, total := 0,
    progress := 0, status := "开始下载", start_time := "n1" }

/-! Arithmetic facts about the rounded progress value. -/

theorem roundHalfEven_natCast_div (a b : ℕ) (hb : 0 < b) :
    roundHalfEven ((a : ℚ) / (b : ℚ)) =
      (if 2 * (a % b) < b then (a / b : ℕ)
       else if b < 2 * (a % b) then ((a / b) + 1 : ℕ)
       else if (a / b) % 2 = 0 then (a / b : ℕ) else ((a / b) + 1 : ℕ) : ℤ) := by
  have hb0 : (0:ℚ) < (b:ℚ) := by exact_mod_cast hb
  have hfloor : ⌊(a : ℚ) / (b : ℚ)⌋ = ((a / b : ℕ) : ℤ) := by
    rw [Rat.floor_natCast_div_natCast]
    exact_mod_cast rfl
  have hmodQ : (b : ℚ) * ((a / b : ℕ) : ℚ) + ((a % b : ℕ) : ℚ) = (a : ℚ) := by
    exact_mod_cast Nat.div_add_mod a b
  have hr : (a : ℚ) / (b : ℚ) - (((a / b : ℕ) : ℤ) : ℚ) = ((a % b : ℕ) : ℚ) / (b : ℚ) := by
    have hcc : (((a / b : ℕ) : ℤ) : ℚ) = ((a / b : ℕ) : ℚ) := by
      exact_mod_cast rfl
    rw [hcc, eq_div_iff (ne_of_gt hb0), sub_mul, div_mul_cancel₀ _ (ne_of_gt hb0)]
    linear_combination -hmodQ
  have hlt : (((a % b : ℕ) : ℚ) / (b : ℚ) < 1 / 2) ↔ (2 * (a % b) < b) := by
    rw [div_lt_div_iff₀ hb0 (by norm_num : (0:ℚ) < 2)]
    rw [show ((a % b : ℕ) : ℚ) * 2 = (((a % b) * 2 : ℕ) : ℚ) by push_cast; ring,
        show (1 : ℚ) * (b : ℚ) = ((b : ℕ) : ℚ) by ring, Nat.cast_lt]
    omega
  have hgt : (1 / 2 < ((a % b : ℕ) : ℚ) / (b : ℚ)) ↔ (b < 2 * (a % b)) := by
    rw [lt_div_iff₀ hb0]
    rw [show (1 / 2 : ℚ) * (b : ℚ) = ((b : ℕ) : ℚ) / 2 by ring]
    rw [div_lt_iff₀ (by norm_num : (0:ℚ) < 2)]
    rw [show ((a % b : ℕ) : ℚ) * 2 = (((a % b) * 2 : ℕ) : ℚ) by push_cast; ring, Nat.cast_lt]
    omega
  have hmod2 : ((((a / b : ℕ) : ℤ)) % 2 = 0) ↔ ((a / b) % 2 = 0) := by
    omega
  unfold roundHalfEven
  rw [hfloor, hr]
  by_cases h1 : 2 * (a % b) < b
  · rw [if_pos (hlt.mpr h1), if_pos h1]
  · have hn1 : ¬ (((a % b : ℕ) : ℚ) / (b : ℚ) < 1 / 2) := fun hc => h1 (hlt.mp hc)
    rw [if_neg hn1, if_neg h1]
    by_cases h2 : b < 2 * (a % b)
    · rw [if_pos (hgt.mpr h2), if_pos h2]
      push_cast
      ring
    · have hn2 : ¬ (1 / 2 < ((a % b : ℕ) : ℚ) / (b : ℚ)) := fun hc => h2 (hgt.mp hc)
      rw [if_neg hn2, if_neg h2]
      by_cases h3 : (a / b) % 2 = 0
      · rw [if_pos (hmod2.mpr h3), if_pos h3]
      · rw [if_neg (fun hc => h3 (hmod2.mp hc)), if_neg h3]
        push_cast
        ring

/-- The integer-level `progressTenths` computes exactly the rational rendition
of Python `round(downloaded / total * 100, 1)` — the embedding of branch 4's
stored progress is faithful to the formula in the source. -/
theorem progressValue_eq_pyRound1 (d t : ℕ) (ht : 0 < t) :
    progressValue d t = pyRound1 ((d : ℚ) / (t : ℚ) * 100) := by
  unfold progressValue pyRound1
  rw [if_pos ht]
  have hx : (d : ℚ) / (t : ℚ) * 100 * 10 = ((1000 * d : ℕ) : ℚ) / (t : ℚ) := by
    push_cast
    field_simp
    ring
  rw [hx, roundHalfEven_natCast_div (1000 * d) t ht]
  have hval : ((progressTenths d t : ℕ) : ℤ) =
      (if 2 * (1000 * d % t) < t then ((1000 * d / t : ℕ) : ℤ)
       else if t < 2 * (1000 * d % t) then ((1000 * d / t + 1 : ℕ) : ℤ)
       else if (1000 * d / t) % 2 = 0 then ((1000 * d / t : ℕ) : ℤ)
       else ((1000 * d / t + 1 : ℕ) : ℤ)) := by
    unfold progressTenths
    split_ifs <;> rfl
  rw [Rat.mkRat_eq_div, hval]
  norm_cast

theorem progressTenths_le_1000 (d t : ℕ) (hd : d ≤ t) (ht : 0 < t) :
    progressTenths d t ≤ 1000 := by
  have hq : 1000 * d / t ≤ 1000 := by
    calc 1000 * d / t ≤ 1000 * t / t := Nat.div_le_div_right (Nat.mul_le_mul_left _ hd)
    _ = 1000 := Nat.mul_div_cancel _ ht
  have hqlt : 0 < 1000 * d % t → 1000 * d / t < 1000 := by
    intro hr
    have hdt : d < t := by
      rcases Nat.lt_or_ge d t with h | h
      · exact h
      · have : d = t := le_antisymm hd h
        subst this
        simp [Nat.mul_mod_left] at hr
    apply Nat.div_lt_of_lt_mul
    calc 1000 * d < 1000 * t := by omega
    _ = t * 1000 := by ring
  unfold progressTenths
  split_ifs with h1 h2 h3
  · exact hq
  · have hpos : 0 < 1000 * d % t := by omega
    have := hqlt hpos
    omega
  · exact hq
  · have hpos : 0 < 1000 * d % t := by omega
    have := hqlt hpos
    omega

theorem progressValue_nonneg (d t : ℕ) : 0 ≤ progressValue d t := by
  unfold progressValue
  split_ifs with h
  · rw [Rat.mkRat_eq_div]
    positivity
  · norm_num

theorem progressValue_le_100 (d t : ℕ) (hd : d ≤ t) : progressValue d t ≤ 100 := by
  unfold progressValue
  split_ifs with h
  · rw [Rat.mkRat_eq_div]
    have h1 := progressTenths_le_1000 d t hd h
    have h2 : (((progressTenths d t : ℕ) : ℤ) : ℚ) ≤ 1000 := by exact_mod_cast h1
    have h3 : (((10 : ℕ) : ℚ)) = 10 := by norm_num
    rw [h3, div_le_iff₀ (by norm_num : (0:ℚ) < 10)]
    linarith
  · norm_num



theorem hasKey_eq_false_iff (s : Registry) (k : String) :
    hasKey s k = false ↔ ∀ p ∈ s, p.1 ≠ k := by
  induction s with
  | nil => simp [hasKey]
  | cons q rest ih =>
    obtain ⟨k', t⟩ := q
    by_cases h : k' = k
    · simp [hasKey, h]
    · simp [hasKey, h, ih]

theorem hasKey_eq_true_iff (s : Registry) (k : String) :
    hasKey s k = true ↔ ∃ p ∈ s, p.1 = k := by
  rw [← not_iff_not]
  push_neg
  simpa using hasKey_eq_false_iff s k

theorem hasFilename_eq_false_iff (s : Registry) (fn : String) :
    hasFilename s fn = false ↔ ∀ p ∈ s, p.2.filename ≠ fn := by
  induction s with
  | nil => simp [hasFilename]
  | cons q rest ih =>
    obtain ⟨k', t⟩ := q
    by_cases h : t.filename = fn
    · simp [hasFilename, h]
    · simp [hasFilename, h, ih]

theorem hasFilename_eq_true_iff (s : Registry) (fn : String) :
    hasFilename s fn = true ↔ ∃ p ∈ s, p.2.filename = fn := by
  rw [← not_iff_not]
  push_neg
  simpa using hasFilename_eq_false_iff s fn

theorem hasKey_append_left (s s' : Registry) (k : String) (h : hasKey s k = true) :
    hasKey (s ++ s') k = true := by
  induction s with
  | nil => exact Bool.noConfusion h
  | cons q rest ih =>
    obtain ⟨k', t⟩ := q
    by_cases hk : k' = k
    · simp [hasKey, hk]
    · simp only [hasKey, hk, if_false] at h
      simp only [List.cons_append, hasKey, if_neg hk]
      exact ih h

theorem hasKey_append_singleton (s : Registry) (k : String) (t : Task) :
    hasKey (s ++ [(k, t)]) k = true := by
  induction s with
  | nil => simp [hasKey]
  | cons q rest ih =>
    obtain ⟨k', t'⟩ := q
    by_cases hk : k' = k
    · simp [hasKey, hk]
    · simpa [hasKey, hk] using ih



theorem mem_setStatusAt {k st : String} {s : Registry} {p : String × Task}
    (h : p ∈ setStatusAt k st s) :
    p ∈ s ∨ ∃ q ∈ s, p = (q.1, { q.2 with status := st }) := by
  induction s with
  | nil => simp [setStatusAt] at h
  | cons q rest ih =>
    obtain ⟨k', t⟩ := q
    by_cases hk : k' = k
    · simp only [setStatusAt, if_pos hk] at h
      rcases List.mem_cons.mp h with h | h
      · exact Or.inr ⟨(k', t), List.mem_cons_self _ _, h⟩
      · exact Or.inl (List.mem_cons_of_mem _ h)
    · simp only [setStatusAt, if_neg hk] at h
      rcases List.mem_cons.mp h with h | h
      · exact Or.inl (h ▸ List.mem_cons_self _ _)
      · rcases ih h with h' | ⟨q, hq, hpq⟩
        · exact Or.inl (List.mem_cons_of_mem _ h')
        · exact Or.inr ⟨q, List.mem_cons_of_mem _ hq, hpq⟩

theorem mem_bindFilename {fn : String} {s : Registry} {p : String × Task}
    (h : p ∈ (bindFilename fn s).1) :
    p ∈ s ∨ ∃ q ∈ s, p = (q.1, { q.2 with filename := fn, status := "开始下载" }) := by
  induction s with
  | nil => simp [bindFilename] at h
  | cons q rest ih =>
    obtain ⟨k', t⟩ := q
    by_cases hc : t.filename = "等待解析..." ∨ t.filename = ""
    · simp only [bindFilename, if_pos hc] at h
      rcases List.mem_cons.mp h with h | h
      · exact Or.inr ⟨(k', t), List.mem_cons_self _ _, h⟩
      · exact Or.inl (List.mem_cons_of_mem _ h)
    · simp only [bindFilename, if_neg hc] at h
      rcases List.mem_cons.mp h with h | h
      · exact Or.inl (h ▸ List.mem_cons_self _ _)
      · rcases ih h with h' | ⟨q, hq, hpq⟩
        · exact Or.inl (List.mem_cons_of_mem _ h')
        · exact Or.inr ⟨q, List.mem_cons_of_mem _ hq, hpq⟩

theorem mem_updateByKey {k : String} {d tot : ℕ} {s : Registry} {p : String × Task}
    (h : p ∈ updateByKey k d tot s) :
    p ∈ s ∨ ∃ q ∈ s, p = (q.1, updateProgressTask q.2 d tot) := by
  induction s with
  | nil => simp [updateByKey] at h
  | cons q rest ih =>
    obtain ⟨k', t⟩ := q
    by_cases hk : k' = k
    · simp only [updateByKey, if_pos hk] at h
      rcases List.mem_cons.mp h with h | h
      · exact Or.inr ⟨(k', t), List.mem_cons_self _ _, h⟩
      · exact Or.inl (List.mem_cons_of_mem _ h)
    · simp only [updateByKey, if_neg hk] at h
      rcases List.mem_cons.mp h with h | h
      · exact Or.inl (h ▸ List.mem_cons_self _ _)
      · rcases ih h with h' | ⟨q, hq, hpq⟩
        · exact Or.inl (List.mem_cons_of_mem _ h')
        · exact Or.inr ⟨q, List.mem_cons_of_mem _ hq, hpq⟩

theorem mem_updateByFilename {fn : String} {d tot : ℕ} {s : Registry} {p : String × Task}
    (h : p ∈ (updateByFilename fn d tot s).1) :
    p ∈ s ∨ ∃ q ∈ s, p = (q.1, updateProgressTask q.2 d tot) := by
  induction s with
  | nil => simp [updateByFilename] at h
  | cons q rest ih =>
    obtain ⟨k', t⟩ := q
    by_cases hc : t.filename = fn
    · simp only [updateByFilename, if_pos hc] at h
      rcases List.mem_cons.mp h with h | h
      · exact Or.inr ⟨(k', t), List.mem_cons_self _ _, h⟩
      · exact Or.inl (List.mem_cons_of_mem _ h)
    · simp only [updateByFilename, if_neg hc] at h
      rcases List.mem_cons.mp h with h | h
      · exact Or.inl (h ▸ List.mem_cons_self _ _)
      · rcases ih h with h' | ⟨q, hq, hpq⟩
        · exact Or.inl (List.mem_cons_of_mem _ h')
        · exact Or.inr ⟨q, List.mem_cons_of_mem _ hq, hpq⟩

theorem mem_completeByFilename {fn : String} {s : Registry} {p : String × Task}
    (h : p ∈ completeByFilename fn s) :
    p ∈ s ∨ ∃ q ∈ s, p = (q.1, { q.2 with status := "已完成", progress := 100 }) := by
  induction s with
  | nil => simp [completeByFilename] at h
  | cons q rest ih =>
    obtain ⟨k', t⟩ := q
    by_cases hc : t.filename = fn
    · simp only [completeByFilename, if_pos hc] at h
      rcases List.mem_cons.mp h with h | h
      · exact Or.inr ⟨(k', t), List.mem_cons_self _ _, h⟩
      · exact Or.inl (List.mem_cons_of_mem _ h)
    · simp only [completeByFilename, if_neg hc] at h
      rcases List.mem_cons.mp h with h | h
      · exact Or.inl (h ▸ List.mem_cons_self _ _)
      · rcases ih h with h' | ⟨q, hq, hpq⟩
        · exact Or.inl (List.mem_cons_of_mem _ h')
        · exact Or.inr ⟨q, List.mem_cons_of_mem _ hq, hpq⟩

theorem mem_failByFilename {fn st : String} {s : Registry} {p : String × Task}
    (h : p ∈ failByFilename fn st s) :
    p ∈ s ∨ ∃ q ∈ s, p = (q.1, { q.2 with status := st }) := by
  induction s with
  | nil => simp [failByFilename] at h
  | cons q rest ih =>
    obtain ⟨k', t⟩ := q
    by_cases hc : t.filename = fn
    · simp only [failByFilename, if_pos hc] at h
      rcases List.mem_cons.mp h with h | h
      · exact Or.inr ⟨(k', t), List.mem_cons_self _ _, h⟩
      · exact Or.inl (List.mem_cons_of_mem _ h)
    · simp only [failByFilename, if_neg hc] at h
      rcases List.mem_cons.mp h with h | h
      · exact Or.inl (h ▸ List.mem_cons_self _ _)
      · rcases ih h with h' | ⟨q, hq, hpq⟩
        · exact Or.inl (List.mem_cons_of_mem _ h')
        · exact Or.inr ⟨q, List.mem_cons_of_mem _ hq, hpq⟩



theorem setStatusAt_decomp (k st : String) (pre post : Registry) (t : Task)
    (hpre : ∀ p ∈ pre, p.1 ≠ k) :
    setStatusAt k st (pre ++ (k, t) :: post) = pre ++ (k, { t with status := st }) :: post := by
  induction pre with
  | nil => simp [setStatusAt]
  | cons q rest ih =>
    obtain ⟨k', t'⟩ := q
    have hne : k' ≠ k := hpre (k', t') (List.mem_cons_self _ _)
    simp only [List.cons_append, setStatusAt, if_neg hne, List.append_eq]
    rw [ih (fun p hp => hpre p (List.mem_cons_of_mem _ hp))]

theorem updateByKey_decomp (k : String) (d tot : ℕ) (pre post : Registry) (t : Task)
    (hpre : ∀ p ∈ pre, p.1 ≠ k) :
    updateByKey k d tot (pre ++ (k, t) :: post) =
      pre ++ (k, updateProgressTask t d tot) :: post := by
  induction pre with
  | nil => simp [updateByKey]
  | cons q rest ih =>
    obtain ⟨k', t'⟩ := q
    have hne : k' ≠ k := hpre (k', t') (List.mem_cons_self _ _)
    simp only [List.cons_append, updateByKey, if_neg hne, List.append_eq]
    rw [ih (fun p hp => hpre p (List.mem_cons_of_mem _ hp))]

theorem updateByFilename_decomp (fn : String) (d tot : ℕ) (pre post : Registry)
    (k : String) (t : Task) (ht : t.filename = fn)
    (hpre : ∀ p ∈ pre, p.2.filename ≠ fn) :
    updateByFilename fn d tot (pre ++ (k, t) :: post) =
      (pre ++ (k, updateProgressTask t d tot) :: post, true) := by
  induction pre with
  | nil => simp [updateByFilename, ht]
  | cons q rest ih =>
    obtain ⟨k', t'⟩ := q
    have hne : t'.filename ≠ fn := hpre (k', t') (List.mem_cons_self _ _)
    simp only [List.cons_append, updateByFilename, if_neg hne, List.append_eq]
    rw [ih (fun p hp => hpre p (List.mem_cons_of_mem _ hp))]

theorem updateByFilename_of_none (fn : String) (d tot : ℕ) (s : Registry)
    (h : ∀ p ∈ s, p.2.filename ≠ fn) :
    updateByFilename fn d tot s = (s, false) := by
  induction s with
  | nil => rfl
  | cons q rest ih =>
    obtain ⟨k, t⟩ := q
    have hne : t.filename ≠ fn := h (k, t) (List.mem_cons_self _ _)
    simp only [updateByFilename, if_neg hne]
    rw [ih (fun p hp => h p (List.mem_cons_of_mem _ hp))]

theorem bindFilename_decomp (fn : String) (pre post : Registry) (k : String) (t : Task)
    (ht : t.filename = "等待解析..." ∨ t.filename = "")
    (hpre : ∀ p ∈ pre, ¬ (p.2.filename = "等待解析..." ∨ p.2.filename = "")) :
    bindFilename fn (pre ++ (k, t) :: post) =
      (pre ++ (k, { t with filename := fn, status := "开始下载" }) :: post, true) := by
  induction pre with
  | nil => simp [bindFilename, ht]
  | cons q rest ih =>
    obtain ⟨k', t'⟩ := q
    have hne := hpre (k', t') (List.mem_cons_self _ _)
    simp only [List.cons_append, bindFilename, if_neg hne, List.append_eq]
    rw [ih (fun p hp => hpre p (List.mem_cons_of_mem _ hp))]

theorem bindFilename_of_none (fn : String) (s : Registry)
    (h : ∀ p ∈ s, ¬ (p.2.filename = "等待解析..." ∨ p.2.filename = "")) :
    bindFilename fn s = (s, false) := by
  induction s with
  | nil => rfl
  | cons q rest ih =>
    obtain ⟨k, t⟩ := q
    have hne := h (k, t) (List.mem_cons_self _ _)
    simp only [bindFilename, if_neg hne]
    rw [ih (fun p hp => h p (List.mem_cons_of_mem _ hp))]

theorem completeByFilename_decomp (fn : String) (pre post : Registry) (k : String) (t : Task)
    (ht : t.filename = fn) (hpre : ∀ p ∈ pre, p.2.filename ≠ fn) :
    completeByFilename fn (pre ++ (k, t) :: post) =
      pre ++ (k, { t with status := "已完成", progress := 100 }) :: post := by
  induction pre with
  | nil => simp [completeByFilename, ht]
  | cons q rest ih =>
    obtain ⟨k', t'⟩ := q
    have hne : t'.filename ≠ fn := hpre (k', t') (List.mem_cons_self _ _)
    simp only [List.cons_append, completeByFilename, if_neg hne, List.append_eq]
    rw [ih (fun p hp => hpre p (List.mem_cons_of_mem _ hp))]

theorem completeByFilename_of_none (fn : String) (s : Registry)
    (h : ∀ p ∈ s, p.2.filename ≠ fn) :
    completeByFilename fn s = s := by
  induction s with
  | nil => rfl
  | cons q rest ih =>
    obtain ⟨k, t⟩ := q
    have hne : t.filename ≠ fn := h (k, t) (List.mem_cons_self _ _)
    simp only [completeByFilename, if_neg hne]
    rw [ih (fun p hp => h p (List.mem_cons_of_mem _ hp))]

theorem failByFilename_decomp (fn st : String) (pre post : Registry) (k : String) (t : Task)
    (ht : t.filename = fn) (hpre : ∀ p ∈ pre, p.2.filename ≠ fn) :
    failByFilename fn st (pre ++ (k, t) :: post) =
      pre ++ (k, { t with status := st }) :: post := by
  induction pre with
  | nil => simp [failByFilename, ht]
  | cons q rest ih =>
    obtain ⟨k', t'⟩ := q
    have hne : t'.filename ≠ fn := hpre (k', t') (List.mem_cons_self _ _)
    simp only [List.cons_append, failByFilename, if_neg hne, List.append_eq]
    rw [ih (fun p hp => hpre p (List.mem_cons_of_mem _ hp))]

theorem failByFilename_of_none (fn st : String) (s : Registry)
    (h : ∀ p ∈ s, p.2.filename ≠ fn) :
    failByFilename fn st s = s := by
  induction s with
  | nil => rfl
  | cons q rest ih =>
    obtain ⟨k, t⟩ := q
    have hne : t.filename ≠ fn := h (k, t) (List.mem_cons_self _ _)
    simp only [failByFilename, if_neg hne]
    rw [ih (fun p hp => h p (List.mem_cons_of_mem _ hp))]

theorem setStatusAt_of_none (k st : String) (s : Registry)
    (h : ∀ p ∈ s, p.1 ≠ k) :
    setStatusAt k st s = s := by
  induction s with
  | nil => rfl
  | cons q rest ih =>
    obtain ⟨k', t⟩ := q
    have hne : k' ≠ k := h (k', t) (List.mem_cons_self _ _)
    simp only [setStatusAt, if_neg hne]
    rw [ih (fun p hp => h p (List.mem_cons_of_mem _ hp))]



theorem parse_preserves (now fresh msg : String) (P : Task → Prop)
    (hnewQ : ∀ tid, searchProcessing msg.data = some tid → P (newQueuedTask tid now))
    (hnewS : ∀ fn, searchFileStart msg.data = some fn →
       P (newStartedTask ("auto_" ++ fresh) fn now))
    (hstatus : ∀ t st, P t → P { t with status := st })
    (hbind : ∀ t fn, searchFileStart msg.data = some fn →
       P t → P { t with filename := fn, status := "开始下载" })
    (hprog : ∀ t d tot, P t → P (updateProgressTask t d tot))
    (hcomplete : ∀ t, P t → P { t with status := "已完成", progress := 100 })
    (s : Registry) (hs : ∀ p ∈ s, P p.2) :
    ∀ p ∈ parse_download_task now fresh msg s, P p.2 := by
  intro p hp
  unfold parse_download_task at hp
  cases hsp : searchProcessing msg.data with
  | some tid =>
    rw [hsp] at hp
    simp only at hp
    by_cases hk : hasKey s tid = true
    · rw [if_pos hk] at hp
      exact hs p hp
    · rw [if_neg hk] at hp
      rcases List.mem_append.mp hp with h | h
      · exact hs p h
      · rcases List.mem_singleton.mp h with rfl
        exact hnewQ tid hsp
  | none =>
  rw [hsp] at hp
  simp only at hp
  cases hsb : searchBatch msg.data with
  | some tid =>
    rw [hsb] at hp
    simp only at hp
    by_cases hk : hasKey s tid = true
    · rw [if_pos hk] at hp
      rcases mem_setStatusAt hp with h | ⟨q, hq, rfl⟩
      · exact hs p h
      · exact hstatus q.2 _ (hs q hq)
    · rw [if_neg hk] at hp
      exact hs p hp
  | none =>
  rw [hsb] at hp
  simp only at hp
  cases hsf : searchFileStart msg.data with
  | some fn =>
    rw [hsf] at hp
    simp only at hp
    by_cases hf : hasFilename s fn = true
    · rw [if_pos hf] at hp
      exact hs p hp
    · rw [if_neg hf] at hp
      by_cases hb : (bindFilename fn s).2 = true
      · rw [if_pos hb] at hp
        rcases mem_bindFilename hp with h | ⟨q, hq, rfl⟩
        · exact hs p h
        · exact hbind q.2 fn hsf (hs q hq)
      · rw [if_neg hb] at hp
        rcases List.mem_append.mp hp with h | h
        · exact hs p h
        · rcases List.mem_singleton.mp h with rfl
          exact hnewS fn hsf
  | none =>
  rw [hsf] at hp
  simp only at hp
  cases hsg : searchProgress msg.data with
  | some r =>
    obtain ⟨raw, d, tot⟩ := r
    rw [hsg] at hp
    simp only at hp
    by_cases hk : hasKey s (pyStrip raw) = true
    · rw [if_pos hk] at hp
      rcases mem_updateByKey hp with h | ⟨q, hq, rfl⟩
      · exact hs p h
      · exact hprog q.2 d tot (hs q hq)
    · rw [if_neg hk] at hp
      rcases mem_updateByFilename hp with h | ⟨q, hq, rfl⟩
      · exact hs p h
      · exact hprog q.2 d tot (hs q hq)
  | none =>
  rw [hsg] at hp
  simp only at hp
  by_cases hcc : completedCond msg = true
  · rw [if_pos hcc] at hp
    cases hsc : searchComplete msg.data with
    | some fn =>
      rw [hsc] at hp
      rcases mem_completeByFilename hp with h | ⟨q, hq, rfl⟩
      · exact hs p h
      · exact hcomplete q.2 (hs q hq)
    | none =>
      rw [hsc] at hp
      exact hs p hp
  · rw [if_neg hcc] at hp
    by_cases hfc : failedCond msg = true
    · rw [if_pos hfc] at hp
      cases hse : searchErrFile msg.data with
      | some fn =>
        rw [hse] at hp
        rcases mem_failByFilename hp with h | ⟨q, hq, rfl⟩
        · exact hs p h
        · exact hstatus q.2 _ (hs q hq)
      | none =>
        rw [hse] at hp
        exact hs p hp
    · rw [if_neg hfc] at hp
      exact hs p hp



theorem specProgress_eq_progressValue (d t : ℕ) : specProgress d t = progressValue d t := by
  unfold specProgress
  by_cases ht : 0 < t
  · rw [if_pos ht, progressValue_eq_pyRound1 d t ht]
  · rw [if_neg ht]
    unfold progressValue
    rw [if_neg ht]

theorem reachable_progress_formula :
    ∀ s : Registry, Reachable s →
      ∀ p ∈ s, p.2.progress = specProgress p.2.downloaded p.2.total ∨ p.2.progress = 100 := by
  have hP : ∀ s : Registry, Reachable s →
      ∀ p ∈ s, p.2.progress = progressValue p.2.downloaded p.2.total ∨ p.2.progress = 100 := by
    intro s h
    induction h with
    | init => intro p hp; exact absurd hp (List.not_mem_nil p)
    | parse now fresh message h ih =>
      refine parse_preserves now fresh message
        (fun t => t.progress = progressValue t.downloaded t.total ∨ t.progress = 100)
        ?_ ?_ ?_ ?_ ?_ ?_ _ ih
      · intro tid _
        exact Or.inl (by simp [newQueuedTask, progressValue])
      · intro fn _
        exact Or.inl (by simp [newStartedTask, progressValue])
      · intro t st ht
        exact ht
      · intro t fn _ ht
        exact ht
      · intro t d tot _
        exact Or.inl rfl
      · intro t _
        exact Or.inr rfl
    | clear clear_type h ih =>
      intro p hp
      exact ih p (List.mem_filter.mp hp).1
    | remove tid h ih =>
      intro p hp
      exact ih p (List.mem_filter.mp hp).1
    | clearFinished h ih =>
      intro p hp
      exact ih p (List.mem_filter.mp hp).1
  intro s h p hp
  rw [specProgress_eq_progressValue]
  exact hP s h p hp

theorem reachable_progress_bounds :
    ∀ s : Registry, Reachable s →
      ∀ p ∈ s, 0 ≤ p.2.progress ∧ (p.2.downloaded ≤ p.2.total → p.2.progress ≤ 100) := by
  intro s h
  induction h with
  | init => intro p hp; exact absurd hp (List.not_mem_nil p)
  | parse now fresh message h ih =>
    refine parse_preserves now fresh message
      (fun t => 0 ≤ t.progress ∧ (t.downloaded ≤ t.total → t.progress ≤ 100))
      ?_ ?_ ?_ ?_ ?_ ?_ _ ih
    · intro tid _
      exact ⟨le_refl 0, fun _ => by norm_num [newQueuedTask]⟩
    · intro fn _
      exact ⟨le_refl 0, fun _ => by norm_num [newStartedTask]⟩
    · intro t st ht
      exact ht
    · intro t fn _ ht
      exact ht
    · intro t d tot _
      exact ⟨progressValue_nonneg d tot, fun hle => progressValue_le_100 d tot hle⟩
    · intro t _
      exact ⟨by norm_num, fun _ => by norm_num⟩
  | clear clear_type h ih =>
    intro p hp
    exact ih p (List.mem_filter.mp hp).1
  | remove tid h ih =>
    intro p hp
    exact ih p (List.mem_filter.mp hp).1
  | clearFinished h ih =>
    intro p hp
    exact ih p (List.mem_filter.mp hp).1


/-! Branch dispatch equations for the parser. -/

theorem parse_eq_of_processing (now fresh msg : String) (s : Registry) (tid : String)
    (h : searchProcessing msg.data = some tid) :
    parse_download_task now fresh msg s =
      if hasKey s tid then s else s ++ [(tid, newQueuedTask tid now)] := by
  unfold parse_download_task
  rw [h]

theorem parse_eq_of_batch (now fresh msg : String) (s : Registry) (tid : String)
    (h0 : searchProcessing msg.data = none) (h : searchBatch msg.data = some tid) :
    parse_download_task now fresh msg s =
      if hasKey s tid then setStatusAt tid "初始化" s else s := by
  unfold parse_download_task
  rw [h0]
  simp only
  rw [h]

theorem parse_eq_of_fileStart (now fresh msg : String) (s : Registry) (fn : String)
    (h0 : searchProcessing msg.data = none) (h1 : searchBatch msg.data = none)
    (h : searchFileStart msg.data = some fn) :
    parse_download_task now fresh msg s =
      if hasFilename s fn then s
      else if (bindFilename fn s).2 then (bindFilename fn s).1
      else s ++ [("auto_" ++ fresh, newStartedTask ("auto_" ++ fresh) fn now)] := by
  unfold parse_download_task
  rw [h0]
  simp only
  rw [h1]
  simp only
  rw [h]

theorem parse_eq_of_progress (now fresh msg : String) (s : Registry)
    (raw : String) (d tot : ℕ)
    (h0 : searchProcessing msg.data = none) (h1 : searchBatch msg.data = none)
    (h2 : searchFileStart msg.data = none)
    (h : searchProgress msg.data = some (raw, d, tot)) :
    parse_download_task now fresh msg s =
      if hasKey s (pyStrip raw) then updateByKey (pyStrip raw) d tot s
      else (updateByFilename (pyStrip raw) d tot s).1 := by
  unfold parse_download_task
  rw [h0]
  simp only
  rw [h1]
  simp only
  rw [h2]
  simp only
  rw [h]

theorem parse_eq_of_terminal (now fresh msg : String) (s : Registry)
    (h0 : searchProcessing msg.data = none) (h1 : searchBatch msg.data = none)
    (h2 : searchFileStart msg.data = none) (h3 : searchProgress msg.data = none) :
    parse_download_task now fresh msg s =
      (if completedCond msg then
        match searchComplete msg.data with
        | some filename => completeByFilename filename s
        | none => s
      else if failedCond msg then
        match searchErrFile msg.data with
        | some filename =>
          failByFilename filename (if canceledCond msg then "已取消" else "失败") s
        | none => s
      else s) := by
  unfold parse_download_task
  rw [h0]
  simp only
  rw [h1]
  simp only
  rw [h2]
  simp only
  rw [h3]

/-! The filename captured by branch 3 is never empty. -/

theorem fileStartCap_ne_empty (cs : List Char) (acc : List Char) (fn : String)
    (h : fileStartCap acc cs = some fn) : fn ≠ "" := by
  induction cs generalizing acc with
  | nil => exact absurd h (by simp [fileStartCap])
  | cons c rest ih =>
    unfold fileStartCap at h
    by_cases hc : c = '\n'
    · rw [if_pos hc] at h
      exact absurd h (by simp)
    · rw [if_neg hc] at h
      by_cases hp : ("]: Starting file download".data).isPrefixOf rest = true
      · rw [if_pos hp] at h
        injection h with h
        subst h
        intro he
        have hd : acc ++ [c] = ([] : List Char) := congrArg String.data he
        simp at hd
      · rw [if_neg hp] at h
        exact ih (acc ++ [c]) h

theorem searchFileStart_ne_empty (cs : List Char) (fn : String)
    (h : searchFileStart cs = some fn) : fn ≠ "" := by
  induction cs with
  | nil => exact absurd h (by simp [searchFileStart])
  | cons c rest ih =>
    unfold searchFileStart at h
    by_cases hp : ("file[".data).isPrefixOf (c :: rest) = true
    · rw [if_pos hp] at h
      cases hm : fileStartCap [] ((c :: rest).drop ("file[".data).length) with
      | some r =>
        rw [hm] at h
        simp only at h
        injection h with h
        exact h ▸ fileStartCap_ne_empty _ _ r hm
      | none =>
        rw [hm] at h
        simp only at h
        exact ih h
    · rw [if_neg hp] at h
      simp only at h
      exact ih h

/-- In every reachable registry state, no task has an empty filename (tasks
are created with the placeholder or a captured filename, and branch 3 always
captures at least one character).  This justifies reading the binding
condition of branch 3 as "first task holding the placeholder". -/
theorem reachable_filename_nonempty :
    ∀ s : Registry, Reachable s → ∀ p ∈ s, p.2.filename ≠ "" := by
  intro s h
  induction h with
  | init => intro p hp; exact absurd hp (List.not_mem_nil p)
  | parse now fresh message h ih =>
    refine parse_preserves now fresh message (fun t => t.filename ≠ "")
      ?_ ?_ ?_ ?_ ?_ ?_ _ ih
    · intro tid _
      simp only [newQueuedTask]
      decide
    · intro fn hf
      simpa [newStartedTask] using searchFileStart_ne_empty _ fn hf
    · intro t st ht
      exact ht
    · intro t fn hf _
      simpa using searchFileStart_ne_empty _ fn hf
    · intro t d tot ht
      exact ht
    · intro t ht
      exact ht
  | clear clear_type h ih =>
    intro p hp
    exact ih p (List.mem_filter.mp hp).1
  | remove tid h ih =>
    intro p hp
    exact ih p (List.mem_filter.mp hp).1
  | clearFinished h ih =>
    intro p hp
    exact ih p (List.mem_filter.mp hp).1


theorem demo1_reachable : Reachable demo1 := Reachable.parse _ _ _ Reachable.init

theorem demo2_reachable : Reachable demo2 := Reachable.parse _ _ _ demo1_reachable

theorem demo3_reachable : Reachable demo3 := Reachable.parse _ _ _ demo2_reachable

theorem demo4_reachable : Reachable demo4 := Reachable.parse _ _ _ demo3_reachable

theorem demoOver_reachable : Reachable demoOver := Reachable.parse _ _ _ demo1_reachable

/-- Claim C1: FIFO placeholder binding.  For a `file[<fn>]: Starting file download`
line (branches 1 and 2 not matching): if some task already has that exact
filename nothing changes; otherwise the filename is bound to the first task
in iteration order still holding the placeholder filename, whose status
becomes "开始下载"; a new task keyed by the generated id is appended only
when no placeholder-holding task remains.  The hypothesis that no filename is
empty holds in every reachable state (`reachable_filename_nonempty`). -/
theorem C1_fifo_placeholder_binding (now fresh msg fn : String) (s : Registry)
    (h0 : searchProcessing msg.data = none) (h1 : searchBatch msg.data = none)
    (h : searchFileStart msg.data = some fn)
    (hne : ∀ p ∈ s, p.2.filename ≠ "") :
    ((∃ p ∈ s, p.2.filename = fn) → parse_download_task now fresh msg s = s) ∧
    (∀ pre k t post, s = pre ++ (k, t) :: post →
       (¬ ∃ p ∈ s, p.2.filename = fn) →
       t.filename = "等待解析..." →
       (∀ p ∈ pre, p.2.filename ≠ "等待解析...") →
       parse_download_task now fresh msg s =
         pre ++ (k, { t with filename := fn, status := "开始下载" }) :: post) ∧
    ((¬ ∃ p ∈ s, p.2.filename = fn) →
       (∀ p ∈ s, p.2.filename ≠ "等待解析...") →
       parse_download_task now fresh msg s =
         s ++ [("auto_" ++ fresh, newStartedTask ("auto_" ++ fresh) fn now)]) := by
  refine ⟨?_, ?_, ?_⟩
  · intro hex
    rw [parse_eq_of_fileStart now fresh msg s fn h0 h1 h,
        if_pos ((hasFilename_eq_true_iff s fn).mpr hex)]
  · intro pre k t post hdecomp hnex hplace hpre
    have hf : hasFilename s fn = false := by
      rw [hasFilename_eq_false_iff]
      push_neg at hnex
      exact hnex
    rw [parse_eq_of_fileStart now fresh msg s fn h0 h1 h, if_neg (by simp [hf])]
    subst hdecomp
    have hb := bindFilename_decomp fn pre post k t (Or.inl hplace)
      (fun p hp => not_or.mpr ⟨hpre p hp, hne p (List.mem_append_left _ hp)⟩)
    rw [hb]
    simp
  · intro hnex hnoplace
    have hf : hasFilename s fn = false := by
      rw [hasFilename_eq_false_iff]
      push_neg at hnex
      exact hnex
    rw [parse_eq_of_fileStart now fresh msg s fn h0 h1 h, if_neg (by simp [hf]),
        bindFilename_of_none fn s (fun p hp => not_or.mpr ⟨hnoplace p hp, hne p hp⟩)]
    simp

theorem C1_witness :
    parse_download_task "n2" "f2" "file[a.mp4]: Starting file download" demo1 =
      [("T1", { newQueuedTask "T1" "n1" with filename := "a.mp4", status := "开始下载" })] := by
  have h := (C1_fifo_placeholder_binding "n2" "f2" "file[a.mp4]: Starting file download"
      "a.mp4" demo1 (by decide) (by decide) (by decide) (by decide)).2.1
      [] "T1" (newQueuedTask "T1" "n1") [] (by decide) (by decide) rfl
      (fun p hp => absurd hp (List.not_mem_nil p))
  simpa using h


/-- Claim C2 counterexample: after the spec §8 scenario the task `T1` is Completed
(已完成), yet one more `Progress update` line referencing it moves its status
back to 下载中 — a terminal status is not absorbing. -/
theorem C2_counterexample :
    Reachable demo4 ∧
    (lookupTask demo4 "T1").map Task.status = some "已完成" ∧
    (lookupTask (parse_download_task "n5" "f5" "Progress update: T1, 5/10" demo4) "T1").map
        Task.status = some "下载中" :=
  ⟨demo4_reachable, by decide, by decide⟩

/-- Claim C2, amended: terminal states are not absorbing.  A progress-update line
whose stripped identifier is the id of a task in a terminal status updates
that task and sets its status to 下载中 (Downloading). -/
theorem C2_terminal_not_absorbing (now fresh msg raw : String) (d tot : ℕ)
    (pre post : Registry) (t : Task)
    (h0 : searchProcessing msg.data = none) (h1 : searchBatch msg.data = none)
    (h2 : searchFileStart msg.data = none)
    (h3 : searchProgress msg.data = some (raw, d, tot))
    (_hterm : t.status = "已完成" ∨ t.status = "已取消" ∨ t.status = "失败")
    (hpre : ∀ p ∈ pre, p.1 ≠ pyStrip raw) :
    parse_download_task now fresh msg (pre ++ (pyStrip raw, t) :: post) =
      pre ++ (pyStrip raw, updateProgressTask t d tot) :: post ∧
    (updateProgressTask t d tot).status = "下载中" := by
  constructor
  · rw [parse_eq_of_progress now fresh msg _ raw d tot h0 h1 h2 h3]
    have hk : hasKey (pre ++ (pyStrip raw, t) :: post) (pyStrip raw) = true := by
      rw [hasKey_eq_true_iff]
      exact ⟨(pyStrip raw, t), List.mem_append_right _ (List.mem_cons_self _ _), rfl⟩
    rw [if_pos hk]
    exact updateByKey_decomp (pyStrip raw) d tot pre post t hpre
  · rfl

theorem C2_witness :
    parse_download_task "n5" "f5" "Progress update: T1, 5/10" [("T1", demoCompleted)] =
      [("T1", updateProgressTask demoCompleted 5 10)] ∧
    (updateProgressTask demoCompleted 5 10).status = "下载中" := by
  have h := C2_terminal_not_absorbing "n5" "f5" "Progress update: T1, 5/10" "T1" 5 10
      [] [] demoCompleted (by decide) (by decide) (by decide) (by decide)
      (Or.inl rfl) (fun p hp => absurd hp (List.not_mem_nil p))
  have hps : pyStrip "T1" = "T1" := by decide
  rw [hps] at h
  simpa using h

/-- Claim C3 counterexample: in the reachable state `demo4` the task has
`downloaded = 50`, `total = 100` but `progress = 100` (forced by the
completed line), while the claimed formula gives 50. -/
theorem C3_counterexample :
    Reachable demo4 ∧
    lookupTask demo4 "T1" = some demoCompleted ∧
    demoCompleted.downloaded = 50 ∧ demoCompleted.total = 100 ∧
    demoCompleted.progress = 100 ∧
    specProgress 50 100 = 50 ∧ (100 : ℚ) ≠ 50 := by
  refine ⟨demo4_reachable, by decide, rfl, rfl, rfl, ?_, by norm_num⟩
  rw [specProgress_eq_progressValue]
  decide

/-- Claim C3, amended: in every reachable registry state, every task's progress
equals `round(downloaded / total * 100, 1)` (0 when `total = 0`) — except
that a completed terminal line forces progress to exactly 100; so the
progress is always either the formula value or 100. -/
theorem C3_progress_formula :
    ∀ s : Registry, Reachable s →
      ∀ p ∈ s, p.2.progress = specProgress p.2.downloaded p.2.total ∨ p.2.progress = 100 :=
  reachable_progress_formula

theorem C3_witness :
    demoDownloading.progress = specProgress demoDownloading.downloaded demoDownloading.total ∨
      demoDownloading.progress = 100 :=
  C3_progress_formula demo3 demo3_reachable ("T1", demoDownloading) (by decide)

/-- Claim C4 counterexample: the reachable state after `Progress update: T1, 150/100`
holds a task whose progress is 150, outside [0, 100]. -/
theorem C4_counterexample :
    Reachable demoOver ∧
    (lookupTask demoOver "T1").map Task.progress = some 150 ∧
    ¬ ((150 : ℚ) ≤ 100) :=
  ⟨demoOver_reachable, by decide, by norm_num⟩

/-- Claim C4, amended: in every reachable registry state every task's progress is
nonnegative, and is at most 100 whenever `downloaded ≤ total`; a
progress-update line reporting `downloaded > total` drives it above 100. -/
theorem C4_progress_range :
    ∀ s : Registry, Reachable s →
      ∀ p ∈ s, 0 ≤ p.2.progress ∧ (p.2.downloaded ≤ p.2.total → p.2.progress ≤ 100) :=
  reachable_progress_bounds

theorem C4_witness :
    0 ≤ demoDownloading.progress ∧
      (demoDownloading.downloaded ≤ demoDownloading.total → demoDownloading.progress ≤ 100) :=
  C4_progress_range demo3 demo3_reachable ("T1", demoDownloading) (by decide)

/-- Claim C5: progress-update resolution.  The stripped identifier is resolved
first by exact task-id match (even if another task's filename also matches),
otherwise by first filename match; exactly that one task is updated in place
(downloaded, total, recomputed progress, status 下载中); if neither matches
the registry is unchanged and no task is created. -/
theorem C5_progress_resolution (now fresh msg raw : String) (d tot : ℕ) (s : Registry)
    (h0 : searchProcessing msg.data = none) (h1 : searchBatch msg.data = none)
    (h2 : searchFileStart msg.data = none)
    (h3 : searchProgress msg.data = some (raw, d, tot)) :
    (∀ pre t post, s = pre ++ (pyStrip raw, t) :: post →
       (∀ p ∈ pre, p.1 ≠ pyStrip raw) →
       parse_download_task now fresh msg s =
         pre ++ (pyStrip raw, updateProgressTask t d tot) :: post) ∧
    (∀ pre k t post, hasKey s (pyStrip raw) = false →
       s = pre ++ (k, t) :: post → t.filename = pyStrip raw →
       (∀ p ∈ pre, p.2.filename ≠ pyStrip raw) →
       parse_download_task now fresh msg s = pre ++ (k, updateProgressTask t d tot) :: post) ∧
    (hasKey s (pyStrip raw) = false → (∀ p ∈ s, p.2.filename ≠ pyStrip raw) →
       parse_download_task now fresh msg s = s) ∧
    (∀ t : Task, (updateProgressTask t d tot).downloaded = d ∧
       (updateProgressTask t d tot).total = tot ∧
       (updateProgressTask t d tot).progress = progressValue d tot ∧
       (updateProgressTask t d tot).status = "下载中") := by
  refine ⟨?_, ?_, ?_, fun t => ⟨rfl, rfl, rfl, rfl⟩⟩
  · intro pre t post hdecomp hpre
    rw [parse_eq_of_progress now fresh msg s raw d tot h0 h1 h2 h3]
    subst hdecomp
    have hk : hasKey (pre ++ (pyStrip raw, t) :: post) (pyStrip raw) = true := by
      rw [hasKey_eq_true_iff]
      exact ⟨(pyStrip raw, t), List.mem_append_right _ (List.mem_cons_self _ _), rfl⟩
    rw [if_pos hk]
    exact updateByKey_decomp (pyStrip raw) d tot pre post t hpre
  · intro pre k t post hkey hdecomp ht hpre
    rw [parse_eq_of_progress now fresh msg s raw d tot h0 h1 h2 h3, if_neg (by simp [hkey])]
    subst hdecomp
    rw [updateByFilename_decomp (pyStrip raw) d tot pre post k t ht hpre]
  · intro hkey hnofn
    rw [parse_eq_of_progress now fresh msg s raw d tot h0 h1 h2 h3, if_neg (by simp [hkey]),
        updateByFilename_of_none (pyStrip raw) d tot s hnofn]

theorem C5_witness :
    parse_download_task "n3" "f3" "Progress update: a.mp4, 50/100" demo2 =
      [("T1", updateProgressTask demoStarted 50 100)] := by
  have h := (C5_progress_resolution "n3" "f3" "Progress update: a.mp4, 50/100" "a.mp4"
      50 100 demo2 (by decide) (by decide) (by decide) (by decide)).2.1
      [] "T1" demoStarted [] (by decide) (by decide) (by decide)
      (fun p hp => absurd hp (List.not_mem_nil p))
  simpa using h


/-- Claim C6: clear semantics and frame.  `clear("all")` removes every task and
returns the number removed; `clear("completed")` keeps exactly the entries
whose status is outside the terminal set (已完成, 已取消, 失败), untouched
and in order, and returns the number of terminal entries; repeating either
clear removes nothing. -/
theorem C6_clear_semantics (s : Registry) :
    clear_tasks "all" s = ([], s.length) ∧
    (∀ p : String × Task, p ∈ (clear_tasks "completed" s).1 ↔ p ∈ s ∧ isTerminal p.2 = false) ∧
    (clear_tasks "completed" s).2 = (s.filter (fun p => isTerminal p.2)).length ∧
    (clear_tasks "completed" (clear_tasks "completed" s).1).2 = 0 ∧
    (clear_tasks "all" (clear_tasks "all" s).1).2 = 0 := by
  have hall : ∀ t : Task, shouldClear "all" t = true := by
    intro t
    simp [shouldClear]
  have hcomp : ∀ t : Task, shouldClear "completed" t = isTerminal t := by
    intro t
    have hne : ("completed" : String) ≠ "all" := by decide
    simp [shouldClear, hne]
  have hfilt : ∀ s0 : Registry,
      (clear_tasks "completed" s0).1 = s0.filter (fun p => !isTerminal p.2) := by
    intro s0
    unfold clear_tasks
    simp only [hcomp]
  refine ⟨?_, ?_, ?_, ?_, ?_⟩
  · unfold clear_tasks
    simp [hall]
  · intro p
    rw [hfilt s]
    simp [List.mem_filter]
  · unfold clear_tasks
    simp only [hcomp]
  · rw [hfilt s]
    unfold clear_tasks
    simp only [hcomp, List.filter_filter]
    simp
  · unfold clear_tasks
    simp [hall]

theorem C6_witness :
    clear_tasks "all" demo4 = ([], demo4.length) ∧
    (clear_tasks "completed" demo4).2 = (demo4.filter (fun p => isTerminal p.2)).length :=
  ⟨(C6_clear_semantics demo4).1, (C6_clear_semantics demo4).2.2.1⟩

/-- Claim C7: totality and frame.  Processing any line is a total function of the
registry (the embedding is a Lean function), and a line that is neither a
task-discovery nor a file-download-start line and resolves to no existing
task — whatever branch it matches, if any — leaves the registry unchanged. -/
theorem C7_unmatched_frame (now fresh msg : String) (s : Registry)
    (h0 : searchProcessing msg.data = none)
    (h1 : ∀ tid, searchBatch msg.data = some tid → hasKey s tid = false)
    (h2 : searchFileStart msg.data = none)
    (h3 : ∀ raw d tot, searchProgress msg.data = some (raw, d, tot) →
       hasKey s (pyStrip raw) = false ∧ hasFilename s (pyStrip raw) = false)
    (h4 : ∀ fn, searchComplete msg.data = some fn → hasFilename s fn = false)
    (h5 : ∀ fn, searchErrFile msg.data = some fn → hasFilename s fn = false) :
    parse_download_task now fresh msg s = s := by
  cases hb : searchBatch msg.data with
  | some tid =>
    rw [parse_eq_of_batch now fresh msg s tid h0 hb, if_neg (by simp [h1 tid hb])]
  | none =>
  cases hg : searchProgress msg.data with
  | some r =>
    obtain ⟨raw, d, tot⟩ := r
    obtain ⟨hk, hf⟩ := h3 raw d tot hg
    rw [parse_eq_of_progress now fresh msg s raw d tot h0 hb h2 hg, if_neg (by simp [hk]),
        updateByFilename_of_none _ _ _ s ((hasFilename_eq_false_iff s _).mp hf)]
  | none =>
  rw [parse_eq_of_terminal now fresh msg s h0 hb h2 hg]
  by_cases hcc : completedCond msg = true
  · rw [if_pos hcc]
    cases hsc : searchComplete msg.data with
    | some fn =>
      exact completeByFilename_of_none fn s ((hasFilename_eq_false_iff s fn).mp (h4 fn hsc))
    | none => rfl
  · rw [if_neg hcc]
    by_cases hfc : failedCond msg = true
    · rw [if_pos hfc]
      cases hse : searchErrFile msg.data with
      | some fn =>
        exact failByFilename_of_none fn _ s ((hasFilename_eq_false_iff s fn).mp (h5 fn hse))
      | none => rfl
    · rw [if_neg hfc]

theorem C7_witness :
    parse_download_task "n" "f" "some unrecognized noise 42" demo1 = demo1 := by
  apply C7_unmatched_frame
  · decide
  · intro tid h
    rw [show searchBatch ("some unrecognized noise 42" : String).data = none from by decide] at h
    exact Option.noConfusion h
  · decide
  · intro raw d tot h
    rw [show searchProgress ("some unrecognized noise 42" : String).data = none from by decide] at h
    exact Option.noConfusion h
  · intro fn h
    rw [show searchComplete ("some unrecognized noise 42" : String).data = none from by decide] at h
    exact Option.noConfusion h
  · intro fn h
    rw [show searchErrFile ("some unrecognized noise 42" : String).data = none from by decide] at h
    exact Option.noConfusion h

/-- Claim C8 counterexample: `file[a.mp4]: COMPLETED` carries the completed keyword
(detected case-insensitively by the branch guard) and a `file[...]` capture
naming the existing task's filename, yet the case-sensitive capture regex
fails and the line changes nothing — the task stays 开始下载 instead of
moving to 已完成. -/
theorem C8_counterexample :
    completedCond "file[a.mp4]: COMPLETED" = true ∧
    searchComplete ("file[a.mp4]: COMPLETED" : String).data = none ∧
    (lookupTask demo2 "T1").map Task.filename = some "a.mp4" ∧
    (lookupTask demo2 "T1").map Task.status = some "开始下载" ∧
    parse_download_task "n" "f" "file[a.mp4]: COMPLETED" demo2 = demo2 := by
  decide

/-- Claim C8, amended: only the failure/cancel keywords are matched
case-insensitively.  Any casing of failed/error/canceled/cancelled combined
with a lowercase `file[<filename>]` capture naming an existing task's
filename moves that (first-matching) task to 已取消 when a cancel keyword
occurs, else to 失败 — provided the (partly case-sensitive) completed guard
did not fire; the completed outcome additionally needs a lowercase
`downloaded successfully`/`completed` after the capture, so an all-caps
completed line is dropped. -/
theorem C8_failure_keywords_case_insensitive (now fresh msg fn : String)
    (pre post : Registry) (k : String) (t : Task)
    (h0 : searchProcessing msg.data = none) (h1 : searchBatch msg.data = none)
    (h2 : searchFileStart msg.data = none) (h3 : searchProgress msg.data = none)
    (hcc : completedCond msg = false) (hfc : failedCond msg = true)
    (hse : searchErrFile msg.data = some fn)
    (ht : t.filename = fn) (hpre : ∀ p ∈ pre, p.2.filename ≠ fn) :
    parse_download_task now fresh msg (pre ++ (k, t) :: post) =
      pre ++ (k, { t with status := if canceledCond msg then "已取消" else "失败" }) :: post := by
  rw [parse_eq_of_terminal now fresh msg _ h0 h1 h2 h3, if_neg (by simp [hcc]), if_pos hfc, hse]
  exact failByFilename_decomp fn _ pre post k t ht hpre

theorem C8_witness :
    parse_download_task "n" "f" "file[a.mp4]: Download FAILED" [("T1", demoStarted)] =
      [("T1", { demoStarted with status := "失败" })] := by
  have h := C8_failure_keywords_case_insensitive "n" "f" "file[a.mp4]: Download FAILED"
      "a.mp4" [] [] "T1" demoStarted (by decide) (by decide) (by decide) (by decide)
      (by decide) (by decide) (by decide) rfl (fun p hp => absurd hp (List.not_mem_nil p))
  have hcan : canceledCond "file[a.mp4]: Download FAILED" = false := by decide
  rw [hcan] at h
  simpa using h

/-- Claim C9, spec-modelled: the first sample for a stream key records the
reading and reports speed 0; a later sample whose counter is lower than the
recorded one (counter reset) reports speed 0, records the new reading as the
fresh baseline, and leaves the cumulative byte total unchanged (so it never
decreases). -/
theorem C9_rate_sampler (sm : RateSampler) (key : String) (cv : ℤ) (ts : ℚ)
    (st : RateState) (pc : ℤ) (pt : ℚ) (cv2 : ℤ) (ts2 : ℚ) :
    (findState sm key = none →
      sampleKey sm key cv ts =
        (setState key { initialRateState with prev := some (cv, ts) } sm, 0)) ∧
    (st.prev = some (pc, pt) → pt < ts2 → cv2 < pc →
      sample st cv2 ts2 = ({ st with prev := some (cv2, ts2), lastSpeed := 0 }, 0) ∧
      (sample st cv2 ts2).1.cumulative = st.cumulative) := by
  constructor
  · intro hfind
    unfold sampleKey
    rw [hfind]
    rfl
  · intro hprev hlt hreset
    have heq : sample st cv2 ts2 = ({ st with prev := some (cv2, ts2), lastSpeed := 0 }, 0) := by
      unfold sample
      rw [hprev]
      simp only
      rw [if_neg (show ¬ (ts2 - pt ≤ 0) by linarith), if_pos (show cv2 - pc < 0 by omega)]
    exact ⟨heq, by rw [heq]⟩

theorem C9_witness :
    sampleKey [] "proc" 5 1 =
      (setState "proc" { initialRateState with prev := some (5, 1) } [], 0) ∧
    sample { prev := some (10, 1), lastSpeed := 7, history := [7], cumulative := 42 } 4 2 =
      ({ prev := some (4, 2), lastSpeed := 0, history := [7], cumulative := 42 }, 0) := by
  constructor
  · exact (C9_rate_sampler [] "proc" 5 1 initialRateState 0 0 0 0).1 rfl
  · exact ((C9_rate_sampler [] "k" 0 0
      { prev := some (10, 1), lastSpeed := 7, history := [7], cumulative := 42 }
      10 1 4 2).2 rfl (by norm_num) (by norm_num)).1

/-- Claim C10: task-discovery idempotence.  A `Processing task: <id>` line whose id
already exists changes nothing, and applying the same discovery line twice
(with any timestamps) yields the same registry as applying it once. -/
theorem C10_discovery_idempotent (now fresh now2 fresh2 msg : String) (s : Registry)
    (tid : String) (h : searchProcessing msg.data = some tid) :
    (hasKey s tid = true → parse_download_task now fresh msg s = s) ∧
    parse_download_task now2 fresh2 msg (parse_download_task now fresh msg s) =
      parse_download_task now fresh msg s := by
  have hbase : ∀ (n f : String) (s0 : Registry), hasKey s0 tid = true →
      parse_download_task n f msg s0 = s0 := by
    intro n f s0 hk
    rw [parse_eq_of_processing n f msg s0 tid h, if_pos hk]
  constructor
  · exact hbase now fresh s
  · by_cases hk : hasKey s tid = true
    · rw [hbase now fresh s hk]
      exact hbase now2 fresh2 s hk
    · have e1 : parse_download_task now fresh msg s = s ++ [(tid, newQueuedTask tid now)] := by
        rw [parse_eq_of_processing now fresh msg s tid h, if_neg hk]
      rw [e1]
      exact hbase now2 fresh2 _ (hasKey_append_singleton s tid _)

theorem C10_witness :
    parse_download_task "n2" "f2" "Processing task: T1" demo1 = demo1 ∧
    parse_download_task "n2" "f2" "Processing task: T1"
        (parse_download_task "n1" "f1" "Processing task: T1" []) =
      parse_download_task "n1" "f1" "Processing task: T1" [] :=
  ⟨(C10_discovery_idempotent "n2" "f2" "x" "y" "Processing task: T1" demo1 "T1"
      (by decide)).1 (by decide),
   (C10_discovery_idempotent "n1" "f1" "n2" "f2" "Processing task: T1" [] "T1"
      (by decide)).2⟩

end SaveAny
